import Mathlib

set_option maxHeartbeats 1000000

/-! Verification development for the clir line-editing library.

The definitions below are a shallow embedding of `src/clir.c` (and of the
completion callback of `src/example.c`).  C strings are modelled as lists of
characters (the bytes before the terminating NUL); the non-negative machine
integers of the C code (`size_t` counters, lengths, indices) are modelled as
`Nat`, and C `int` values that can be negative (return codes, the history
maximum length parameter) as `Int`.  Terminal writes are modelled by a
success oracle `w : Nat → Bool` giving the outcome of the n-th `write` call
of one rendering pass; allocation failure paths (`malloc`/`strdup` returning
NULL) are not modelled. -/

/-- C strings are modelled as lists of characters (the bytes before the NUL). -/

abbrev Str := List Char

/-- The NUL terminator byte. -/

def nulChar : Char := Char.ofNat 0

/-! ## History store (clir.c, `=== History ===` section)

The process-wide state is `char **history` (oldest entry first),
`history_len` and `history_max_len` (clir.c lines 120-122).  We model it as
the list of entries (whose length is `history_len`) plus the maximum
length. -/

/-- The process-wide history store: `history` (oldest first) together with
`history_max_len` (clir.c lines 120-122). -/

structure Hist where
  entries : List Str
  maxLen : Nat
deriving DecidableEq

/-- Initial history state: `history == NULL`, `history_len == 0`,
`history_max_len == LINENOISE_DEFAULT_HISTORY_MAX_LEN` = 100. -/

def initHist : Hist := { entries := [], maxLen := 100 }

/-- Model of `clirHistoryAdd` (clir.c lines 911-931).  Returns the new store and the
C return value (`true` for 1 = added, `false` for 0 = not added).  Note the
order of operations in the source: when the store is at capacity the oldest
entry is evicted (free + memmove, lines 922-926) *before* the
duplicate-of-most-recent check (line 927). -/

def clirHistoryAdd (line : Str) (h : Hist) : Hist × Bool :=
  if h.maxLen = 0 then (h, false)
  else
    let h1 := if h.entries.length = h.maxLen
      then { h with entries := h.entries.drop 1 }
      else h
    if h1.entries.length ≠ 0 ∧ h1.entries.getLast? = some line
      then (h1, false)
      else ({ h1 with entries := h1.entries ++ [line] }, true)

/-- Model of `clirHistorySetMaxLen` (clir.c lines 937-963).  Rejects `len < 1`;
otherwise keeps the newest `min(history_len, len)` entries (the copy starts
at `history + (history_len - tocopy)`). -/

def clirHistorySetMaxLen (n : Int) (h : Hist) : Hist × Bool :=
  if n < 1 then (h, false)
  else
    let m := n.toNat
    let tocopy := min h.entries.length m
    ({ entries := h.entries.drop (h.entries.length - tocopy), maxLen := m }, true)

/-- An operation on the history store: `clirHistoryAdd` or
`clirHistorySetMaxLen`. -/

inductive HistOp where
  | add (line : Str)
  | setMax (n : Int)

/-- Apply one history operation (discarding the C return value). -/

def applyHistOp (op : HistOp) (h : Hist) : Hist :=
  match op with
  | .add line => (clirHistoryAdd line h).1
  | .setMax n => (clirHistorySetMaxLen n h).1

/-- Run a sequence of history operations, oldest first. -/

def runHist (ops : List HistOp) (h : Hist) : Hist :=
  ops.foldl (fun acc op => applyHistOp op acc) h

/-- The line trimming of `clirHistoryLoad` (clir.c lines 990-994): the line
is cut at the first CR if there is one, otherwise at the first LF. -/

def stripLine (l : Str) : Str :=
  if '\r' ∈ l then l.takeWhile (· ≠ '\r')
  else if '\n' ∈ l then l.takeWhile (· ≠ '\n')
  else l

/-- Model of `clirHistoryLoad` (clir.c lines 983-999).  The file system is modelled
as `Option (List Str)`: `none` when `fopen` returns NULL (in particular when
the file does not exist), `some lines` with the physical lines otherwise.
Returns the C return value and the new history store. -/

def clirHistoryLoad (file : Option (List Str)) (h : Hist) : Int × Hist :=
  match file with
  | none => (-1, h)
  | some lines =>
      (0, lines.foldl (fun acc l => (clirHistoryAdd (stripLine l) acc).1) h)

/-- The history store invariant: the size never exceeds the configured
capacity, and the capacity is at least 1 (`clirHistorySetMaxLen` rejects
smaller values and the default is 100). -/

def histInv (h : Hist) : Prop := h.entries.length ≤ h.maxLen ∧ 1 ≤ h.maxLen

/-! ## Line editing state (clir.c, `struct clirState`, lines 127-140)

The edited buffer `char *buf` is modelled as a function `Nat → Char` (the
caller-supplied byte array); `buflen`, `plen`, `pos`, `oldpos`, `len`,
`cols`, `maxrows` and `word_pos` are the corresponding struct fields.  The
global `mlmode` flag (line 118) is passed explicitly where the C reads it. -/

/-- A single `buf[i] = c` store on the modelled byte array. -/

def updFn (f : Nat → Char) (i : Nat) (c : Char) : Nat → Char :=
  fun j => if j = i then c else f j

/-- Model of `struct clirState` (clir.c lines 127-140), without the file descriptor
and the prompt text (only its length `plen` is used by the editing
logic modelled here) and without `history_index`. -/

structure EditState where
  buf : Nat → Char
  buflen : Nat
  plen : Nat
  pos : Nat
  oldpos : Nat
  len : Nat
  cols : Nat
  maxrows : Nat
  word_pos : Nat

/-- Whether the first `n` terminal writes of a rendering pass all succeed.  The C aborts a refresh at the first failed `write`, and
no state change is interleaved with the writes, so the resulting state only
depends on how long the initial run of successful writes is. -/

def okThrough (w : Nat → Bool) (n : Nat) : Bool := (List.range n).all w

/-- The `rows` value of `refreshMultiLine` (clir.c line 419):
`(plen+cs->len+cs->cols-1)/cs->cols`, the number of rows used by the
current buffer. -/

def refreshRows (plen len cols : Nat) : Nat := (plen + len + cols - 1) / cols

/-- The `rpos` value of `refreshMultiLine` (clir.c line 420):
`(plen+cs->oldpos+cs->cols)/cs->cols`, the relative row of the previously
rendered cursor.  The same formula computes `rpos2` at line 481. -/

def refreshRpos (plen oldpos cols : Nat) : Nat := (plen + oldpos + cols) / cols

/-- Modelled from the spec's words (claims C6): the exact ceiling
`⌈a / c⌉ = a/c` rounded up, written with floor division and a remainder
test. -/

def ceilDivSpec (a c : Nat) : Nat := a / c + (if a % c = 0 then 0 else 1)

/-- Model of `refreshSingleLine` (clir.c lines 381-410).  The function only emits
escape sequences and text; it works on local copies of `buf`, `len` and
`pos` and never writes any field of `cs`, so on the modelled state it is
the identity whatever the outcomes of its writes. -/

def refreshSingleLine (_w : Nat → Bool) (st : EditState) : EditState := st

/-- The tail of `refreshMultiLine` (clir.c lines 480-500): compute `rpos2`,
optionally go up, set the column, and — only if every write so far
succeeded — record `cs->oldpos = cs->pos`.  `base` is the number of writes
already issued before this tail. -/

def refreshMultiFinish (w : Nat → Bool) (base : Nat) (rows : Nat) (st : EditState) :
    EditState :=
  let rpos2 := refreshRpos st.plen st.pos st.cols
  let nUp := if rpos2 < rows then 1 else 0
  if okThrough w (base + nUp + 1) then { st with oldpos := st.pos } else st

/-- Model of `refreshMultiLine` (clir.c lines 416-506).  A failed `write` makes the
C function return immediately, so writes after the first failure are never
issued and `cs->oldpos` is only updated when every write succeeded; the
`cs->maxrows` updates (lines 426 and 477) happen before any further write
of their stage.  Writes are counted in issue order: the optional go-down
(line 440), `old_rows - 1` clear-and-up sequences (line 449), the top-line
clear (line 457), the prompt (line 461), the buffer (line 462), then
optionally the forced newline and column reset (lines 473-475), and
finally the cursor repositioning modelled in `refreshMultiFinish`. -/

def refreshMultiLine (w : Nat → Bool) (st : EditState) : EditState :=
  let plen := st.plen
  let rows := refreshRows plen st.len st.cols
  let rpos := refreshRpos plen st.oldpos st.cols
  let old_rows := st.maxrows
  let st1 := if st.maxrows < rows then { st with maxrows := rows } else st
  let nPre := (if rpos < old_rows then 1 else 0) + (old_rows - 1) + 3
  if ¬ okThrough w nPre then st1
  else if st1.pos ≠ 0 ∧ st1.pos = st1.len ∧ (st1.pos + plen) % st1.cols = 0 then
    if ¬ okThrough w (nPre + 2) then st1
    else
      let st2 := if st1.maxrows < rows + 1 then { st1 with maxrows := rows + 1 } else st1
      refreshMultiFinish w (nPre + 2) (rows + 1) st2
  else refreshMultiFinish w nPre rows st1

/-- Model of `refreshLine` (clir.c lines 510-515): dispatch on the `mlmode` flag. -/

def refreshLine (ml : Bool) (w : Nat → Bool) (st : EditState) : EditState :=
  if ml then refreshMultiLine w st else refreshSingleLine w st

/-- Model of `clirEditInsert` (clir.c lines 520-544).  Returns the new state and the
C return value: -1 exactly when the single-character fast-path `write`
fails, 0 otherwise (including when a `refreshLine` write fails). -/

def clirEditInsert (ml : Bool) (w : Nat → Bool) (st : EditState) (c : Char) :
    EditState × Int :=
  if st.len < st.buflen then
    if st.len = st.pos then
      let st1 : EditState :=
        { st with buf := updFn (updFn st.buf st.pos c) (st.len + 1) nulChar,
                  pos := st.pos + 1, len := st.len + 1 }
      if ¬ml ∧ st1.plen + st1.len < st1.cols then
        (st1, if w 0 then 0 else -1)
      else
        (refreshLine ml w st1, 0)
    else
      let st1 : EditState :=
        { st with
            buf := updFn (updFn
              (fun j => if st.pos + 1 ≤ j ∧ j ≤ st.len then st.buf (j - 1) else st.buf j)
              st.pos c) (st.len + 1) nulChar,
            pos := st.pos + 1, len := st.len + 1 }
      (refreshLine ml w st1, 0)
  else (st, 0)

/-- Model of `clirEditDelete` (clir.c lines 590-597): delete the character under the
cursor (`memmove` of `len-pos-1` bytes, decrement `len`, re-terminate,
refresh). -/

def clirEditDelete (ml : Bool) (w : Nat → Bool) (st : EditState) : EditState :=
  if 0 < st.len ∧ st.pos < st.len then
    refreshLine ml w
      { st with
          buf := updFn
            (fun j => if st.pos ≤ j ∧ j < st.pos + (st.len - st.pos - 1)
              then st.buf (j + 1) else st.buf j)
            (st.len - 1) nulChar,
          len := st.len - 1 }
  else st

/-- Model of `clirEditBackspace` (clir.c lines 600-608). -/

def clirEditBackspace (ml : Bool) (w : Nat → Bool) (st : EditState) : EditState :=
  if 0 < st.pos ∧ 0 < st.len then
    refreshLine ml w
      { st with
          buf := updFn
            (fun j => if st.pos - 1 ≤ j ∧ j < st.pos - 1 + (st.len - st.pos)
              then st.buf (j + 1) else st.buf j)
            (st.len - 1) nulChar,
          pos := st.pos - 1, len := st.len - 1 }
  else st

/-- First scan of `clirEditDeletePrevWord` (clir.c lines 616-617):
`while (pos > 0 && buf[pos-1] == ' ') pos--`. -/

def skipSpacesBack (buf : Nat → Char) : Nat → Nat
  | 0 => 0
  | p + 1 => if buf p = ' ' then skipSpacesBack buf p else p + 1

/-- Second scan of `clirEditDeletePrevWord` (clir.c lines 618-619):
`while (pos > 0 && buf[pos-1] != ' ') pos--`. -/

def skipWordBack (buf : Nat → Char) : Nat → Nat
  | 0 => 0
  | p + 1 => if buf p ≠ ' ' then skipWordBack buf p else p + 1

/-- Model of `clirEditDeletePrevWord` (clir.c lines 612-624): scan back over spaces
then over the word, `memmove` the tail (including its NUL, `len-old_pos+1`
bytes) down to the word start, shrink `len` by the scanned distance. -/

def clirEditDeletePrevWord (ml : Bool) (w : Nat → Bool) (st : EditState) : EditState :=
  let old_pos := st.pos
  let newpos := skipWordBack st.buf (skipSpacesBack st.buf st.pos)
  let diff := old_pos - newpos
  refreshLine ml w
    { st with
        buf := fun j =>
          if newpos ≤ j ∧ j < newpos + (st.len - old_pos + 1)
          then st.buf (j - newpos + old_pos) else st.buf j,
        pos := newpos,
        len := st.len - diff }

/-- Model of `clirEditMoveLeft` (clir.c lines 547-552). -/

def clirEditMoveLeft (ml : Bool) (w : Nat → Bool) (st : EditState) : EditState :=
  if 0 < st.pos then refreshLine ml w { st with pos := st.pos - 1 } else st

/-- Model of `clirEditMoveRight` (clir.c lines 555-560). -/

def clirEditMoveRight (ml : Bool) (w : Nat → Bool) (st : EditState) : EditState :=
  if st.pos ≠ st.len then refreshLine ml w { st with pos := st.pos + 1 } else st

/-- The ctrl-u case of `clirEdit` (clir.c lines 802-806): delete the whole
line. -/

def ctrlUCase (ml : Bool) (w : Nat → Bool) (st : EditState) : EditState :=
  refreshLine ml w { st with buf := updFn st.buf 0 nulChar, pos := 0, len := 0 }

/-- The ctrl-k case of `clirEdit` (clir.c lines 807-811): delete from the
cursor to the end of the line. -/

def ctrlKCase (ml : Bool) (w : Nat → Bool) (st : EditState) : EditState :=
  refreshLine ml w { st with buf := updFn st.buf st.pos nulChar, len := st.pos }

/-- The ctrl-t case of `clirEdit` (clir.c lines 710-718): swap the current
character with the previous one. -/

def ctrlTCase (ml : Bool) (w : Nat → Bool) (st : EditState) : EditState :=
  if 0 < st.pos ∧ st.pos < st.len then
    refreshLine ml w
      { st with
          buf := updFn (updFn st.buf (st.pos - 1) (st.buf st.pos)) st.pos
            (st.buf (st.pos - 1)),
          pos := if st.pos ≠ st.len - 1 then st.pos + 1 else st.pos }
  else st

/-- The initialisation of `clirEdit` (clir.c lines 640-654): empty buffer
with `buf[0] = '\0'`, and `buflen--` so that there is always room for the
terminator (the effective capacity used by `clirEditInsert` is one less
than the caller-supplied buffer size).  `junk` models the uninitialised
contents of the caller's array. -/

def clirEditInit (buflen plen cols : Nat) (junk : Nat → Char) : EditState :=
  { buf := updFn junk 0 nulChar, buflen := buflen - 1, plen := plen,
    pos := 0, oldpos := 0, len := 0, cols := cols, maxrows := 0, word_pos := 0 }

/-- The `default` case of the `clirEdit` dispatch (clir.c lines 827-830):
insert the character; if `clirEditInsert` reports a failed write, `clirEdit`
returns -1 (the session ends with an error); otherwise, after a space,
record the start of a new word in `word_pos`. -/

def clirEditDefaultCase (ml : Bool) (w : Nat → Bool) (c : Char) (st : EditState) :
    EditState × Option Int :=
  let r := clirEditInsert ml w st c
  if r.2 ≠ 0 then (r.1, some (-1))
  else (if c = ' ' then { r.1 with word_pos := r.1.pos } else r.1, none)

/-- Feed a list of printable characters through the `default` case of the
`clirEdit` dispatch (ignoring session exits, which cannot occur when every
write succeeds). -/

def typeChars (ml : Bool) (w : Nat → Bool) (cs : List Char) (st : EditState) : EditState :=
  cs.foldl (fun acc c => (clirEditDefaultCase ml w c acc).1) st

/-- One buffer-editing operation of the `clirEdit` dispatch, carrying the
write-success oracle for the terminal writes it issues. -/

inductive EditOp where
  | insertCh (c : Char) (w : Nat → Bool)
  | deleteCh (w : Nat → Bool)
  | backspaceCh (w : Nat → Bool)
  | delWord (w : Nat → Bool)
  | moveL (w : Nat → Bool)
  | moveR (w : Nat → Bool)
  | clearAll (w : Nat → Bool)
  | killEnd (w : Nat → Bool)
  | swapPrev (w : Nat → Bool)

/-- Apply one editing operation to the state. -/

def applyEditOp (ml : Bool) (op : EditOp) (st : EditState) : EditState :=
  match op with
  | .insertCh c w => (clirEditInsert ml w st c).1
  | .deleteCh w => clirEditDelete ml w st
  | .backspaceCh w => clirEditBackspace ml w st
  | .delWord w => clirEditDeletePrevWord ml w st
  | .moveL w => clirEditMoveLeft ml w st
  | .moveR w => clirEditMoveRight ml w st
  | .clearAll w => ctrlUCase ml w st
  | .killEnd w => ctrlKCase ml w st
  | .swapPrev w => ctrlTCase ml w st

/-- Run a sequence of editing operations. -/

def runEditOps (ml : Bool) (ops : List EditOp) (st : EditState) : EditState :=
  ops.foldl (fun acc op => applyEditOp ml op acc) st

/-! ## Invariants of the editing operations (claims C8, C10) -/

/-- Two states agree on everything except the rendering bookkeeping fields
`oldpos` and `maxrows` (the only `cs` fields a refresh may write). -/

def sameCore (a b : EditState) : Prop :=
  a.buf = b.buf ∧ a.len = b.len ∧ a.pos = b.pos ∧ a.buflen = b.buflen ∧
  a.plen = b.plen ∧ a.cols = b.cols ∧ a.word_pos = b.word_pos

/-- Claim C8's invariant: `0 ≤ pos ≤ len ≤ buflen` (the lower bound is
automatic for `Nat`, mirroring the unsigned `size_t` fields). -/

def editInv (st : EditState) : Prop := st.pos ≤ st.len ∧ st.len ≤ st.buflen

/-- Claim C10's invariant: the byte at index `len` is the NUL terminator
and no byte strictly before `len` is NUL. -/

def nulInv (st : EditState) : Prop :=
  st.buf st.len = nulChar ∧ ∀ i, i < st.len → st.buf i ≠ nulChar

/-- Syntactic check that every insert in an operation sequence carries a
non-NUL character (a NUL byte read from the keyboard would reach the
`default` case of the dispatch and be inserted like any other byte). -/

def insertsNonNul : List EditOp → Bool
  | [] => true
  | EditOp.insertCh c _ :: rest => (c != nulChar) && insertsNonNul rest
  | _ :: rest => insertsNonNul rest

/-! ## Completion (claims C3, C9) and session termination (claim C4) -/

/-- The buffer content as a C string: the bytes from 0 up to (excluding)
`len`.  Under the terminator invariant this is exactly the NUL-terminated
string `cs->buf` that the C code hands to the completion callback. -/

def bufList (st : EditState) : Str := (List.range st.len).map st.buf

/-- The validity check of `completeWord` (clir.c lines 257-269): a candidate
stays valid when each of its characters matches the buffer from `word_pos`
on, comparing while the candidate has characters and `word_pos + char_i`
is before the cursor. -/

def candValid (st : EditState) (cand : Str) : Bool :=
  (List.range (min cand.length (st.pos - st.word_pos))).all
    (fun i => cand.getD i nulChar == st.buf (st.word_pos + i))

/-- The observable outcome of `completeWord`: the edit state, the C return
value, the candidates printed in the multiple-valid branch (clir.c lines
280-286), and whether the beep of the empty-candidate branch fired. -/

structure CWResult where
  st : EditState
  ret : Int
  listed : List Str
  beeped : Bool

/-- The insertion loop of `completeWord`'s unique-valid branch (clir.c
lines 272-275), inserting the characters one at a time through
`clirEditInsert` (whose return value the C ignores); the k-th insert uses
the write oracle `wfam k`. -/

def insertChars (ml : Bool) (wfam : Nat → Nat → Bool) :
    List Char → Nat → EditState → EditState
  | [], _, st => st
  | c :: rest, k, st =>
      insertChars ml wfam rest (k + 1) (clirEditInsert ml (wfam k) st c).1

/-- The body of `completeWord` (clir.c lines 247-291) after the callback
produced the candidate list `cc`: beep when there are no candidates;
otherwise filter by validity; with exactly one valid candidate insert its
characters from index `cs->pos` on (the `valid_p` counter starts at
`cs->pos`, line 264) followed by a space; with more than one list them and
return 1; with zero valid candidates return 0 silently. -/

def completeWordAux (ml : Bool) (wfam : Nat → Nat → Bool) (cc : List Str)
    (st : EditState) : CWResult :=
  if cc.length = 0 then { st := st, ret := 0, listed := [], beeped := true }
  else
    match cc.filter (candValid st) with
    | [] => { st := st, ret := 0, listed := [], beeped := false }
    | [cand] =>
        let tail := cand.drop st.pos
        let st1 := insertChars ml wfam tail 0 st
        { st := (clirEditInsert ml (wfam tail.length) st1 ' ').1, ret := 0,
          listed := [], beeped := false }
    | cands => { st := st, ret := 1, listed := cands, beeped := false }

/-- Model of `completeWord` (clir.c lines 241-292): the callback is invoked with
`cs->buf` — the whole buffer as a C string — and its candidates are then
processed by `completeWordAux`. -/

def completeWord (ml : Bool) (wfam : Nat → Nat → Bool)
    (producer : Str → List Str) (st : EditState) : CWResult :=
  completeWordAux ml wfam (producer (bufList st)) st

/-- The completion callback of the demonstration driver (example.c lines
7-14): every buffer whose first byte is `h` gets the four candidates. -/

def exampleCompletion (buf : Str) : List Str :=
  if buf.head? = some 'h' then
    ["hello".toList, "hi".toList, "hey".toList, "howzit".toList]
  else []

/-- Modelled from the spec (claim C3): "the text typed since the last
whitespace boundary", i.e. the buffer content from `word_pos` on — what the
claim says the producer is invoked with. -/

def specCompletionArg (st : EditState) : Str := (bufList st).drop st.word_pos

/-- The state reached by typing `a`, `b`, space, `c` at the example driver's
prompt (prompt length 7, buffer size 4096, 80 columns): buffer `"ab c"`,
cursor 4, `word_pos` 3. -/

def stC3 : EditState :=
  typeChars false (fun _ => true) "ab c".toList (clirEditInit 4096 7 80 (fun _ => ' '))

/-- A completion producer returning no candidate at all. -/

def p1C3 : Str → List Str := fun _ => []

/-- A completion producer that answers only the full buffer `"ab c"`. -/

def p2C3 : Str → List Str :=
  fun s => if s = "ab c".toList then ["cats!".toList] else []

/-- The session-start placeholder registration of `clirEdit` (clir.c line
658): `clirHistoryAdd("")`. -/

def clirEditStart (h : Hist) : Hist := (clirHistoryAdd [] h).1

/-- How `clirEdit` can end. -/

inductive EditExit where
  | submitted (n : Int)
  | interrupted
  | eofEnd

/-- The enter case of `clirEdit` (clir.c lines 689-692): pop the newest
history entry (the speculative placeholder), return the buffer length. -/

def clirEditEnterCase (st : EditState) (h : Hist) : Hist × EditExit :=
  ({ h with entries := h.entries.dropLast }, EditExit.submitted (Int.ofNat st.len))

/-- The ctrl-c case of `clirEdit` (clir.c lines 693-695): set errno and
return -1.  The history store is not touched. -/

def clirEditInterruptCase (_st : EditState) (h : Hist) : Hist × EditExit :=
  (h, EditExit.interrupted)

/-- The ctrl-d case of `clirEdit` (clir.c lines 700-709): with a non-empty
buffer delete the character under the cursor; with an empty buffer pop the
placeholder and return -1 (end of input). -/

def clirEditEofCase (ml : Bool) (w : Nat → Bool) (st : EditState) (h : Hist) :
    EditState × Hist × Option EditExit :=
  if 0 < st.len then (clirEditDelete ml w st, h, none)
  else (st, { h with entries := h.entries.dropLast }, some EditExit.eofEnd)

/-- Fresh edit state of the example driver: prompt `"hello> "` (length 7),
`LINENOISE_MAX_LINE` = 4096 byte buffer, 80 columns, single-line mode. -/

def initC9 : EditState := clirEditInit 4096 7 80 (fun _ => ' ')

/-- State after typing `h`. -/

def stH : EditState := typeChars false (fun _ => true) "h".toList initC9

/-- State after typing `he`. -/

def stHe : EditState := typeChars false (fun _ => true) "he".toList initC9

/-- State after typing `hel`. -/

def stHel : EditState := typeChars false (fun _ => true) "hel".toList initC9

theorem clirHistoryAdd_histInv (line : Str) (h : Hist) (hI : histInv h) :
    histInv (clirHistoryAdd line h).1 := by
  obtain ⟨h1, h2⟩ := hI
  unfold clirHistoryAdd histInv
  by_cases h0 : h.maxLen = 0
  · omega
  · simp only [if_neg h0]
    by_cases hfull : h.entries.length = h.maxLen
    · simp only [if_pos hfull]
      split <;> simp <;> omega
    · simp only [if_neg hfull]
      split <;> simp <;> omega

theorem clirHistorySetMaxLen_histInv (n : Int) (h : Hist) (hI : histInv h) :
    histInv (clirHistorySetMaxLen n h).1 := by
  obtain ⟨h1, h2⟩ := hI
  unfold clirHistorySetMaxLen histInv
  by_cases hn : n < 1
  · simp only [if_pos hn]
    exact ⟨h1, h2⟩
  · simp only [if_neg hn]
    simp only [List.length_drop]
    constructor
    · omega
    · omega

theorem runHist_histInv (ops : List HistOp) (h : Hist) (hI : histInv h) :
    histInv (runHist ops h) := by
  induction ops generalizing h with
  | nil => exact hI
  | cons op rest ih =>
      cases op with
      | add line => exact ih _ (clirHistoryAdd_histInv line h hI)
      | setMax n => exact ih _ (clirHistorySetMaxLen_histInv n h hI)

theorem getLast?_drop_one {α : Type} (l : List α) (hl : 2 ≤ l.length) :
    (l.drop 1).getLast? = l.getLast? := by
  cases l with
  | nil => simp at hl
  | cons a t =>
      cases t with
      | nil => simp at hl
      | cons b t2 => simp [List.getLast?_cons_cons]

/-- C1 counterexample.  The claim states that adding a line equal to the
most recent entry leaves the store's size and contents unchanged even when
the store is at capacity.  On the store `["a", "b"]` with capacity 2,
`clirHistoryAdd "b"` first evicts the oldest entry (the capacity check at
clir.c line 922 runs before the duplicate check at line 927) and only then
rejects the duplicate: the store becomes `["b"]`, its size dropping from
2 to 1. -/

theorem C1_counterexample :
    clirHistoryAdd ['b'] { entries := [['a'], ['b']], maxLen := 2 } =
      ({ entries := [['b']], maxLen := 2 }, false) ∧
    ({ entries := [['b']], maxLen := 2 } : Hist).entries ≠
      ({ entries := [['a'], ['b']], maxLen := 2 } : Hist).entries := by
  decide

/-- C1 amended: when the store is strictly below its configured capacity,
adding a line equal to the most recent entry is a no-op: it is rejected
(return value 0) and the store is unchanged. -/

theorem C1_amended (h : Hist) (line : Str)
    (hlt : h.entries.length < h.maxLen)
    (hlast : h.entries.getLast? = some line) :
    clirHistoryAdd line h = (h, false) := by
  have h0 : ¬ h.maxLen = 0 := by omega
  have h1 : ¬ h.entries.length = h.maxLen := by omega
  have h2 : h.entries.length ≠ 0 := by
    intro he
    rw [List.length_eq_zero] at he
    rw [he] at hlast
    simp at hlast
  unfold clirHistoryAdd
  simp only [if_neg h0, if_neg h1, h2, hlast, ne_eq, not_false_iff, true_and, if_pos]

theorem C1_amended_witness :
    clirHistoryAdd ['b'] { entries := [['a'], ['b']], maxLen := 3 } =
      ({ entries := [['a'], ['b']], maxLen := 3 }, false) :=
  C1_amended { entries := [['a'], ['b']], maxLen := 3 } ['b'] (by decide) (by decide)

/-- C5: `clirHistoryLoad` on a path whose file does not exist (`fopen`
returns NULL).  The in-memory history is unchanged, but the function
returns -1 — which its own documentation (clir.c lines 978-982) designates
as the error result, reserving 0 for the missing-file case.  The claim
(and the documentation) say a missing file is not an error; the code
returns the error value. -/

theorem C5_load_missing_file (h : Hist) : clirHistoryLoad none h = (-1, h) := rfl

/-- C7: the history store never exceeds its configured capacity under any
sequence of add and set-max-length operations (the invariant holds in the
initial state and is preserved by every operation sequence), and adding a
line distinct from the most recent entry to a full store evicts exactly the
oldest entry, preserving the order of the remaining entries. -/

theorem C7_capacity_invariant :
    histInv initHist ∧
    (∀ ops h, histInv h → histInv (runHist ops h)) ∧
    (∀ h line, histInv h → h.entries.length = h.maxLen →
      h.entries.getLast? ≠ some line →
      clirHistoryAdd line h =
        ({ entries := h.entries.drop 1 ++ [line], maxLen := h.maxLen }, true) ∧
      (h.entries.drop 1 ++ [line]).length = h.maxLen) := by
  refine ⟨⟨by simp [initHist], by simp [initHist]⟩, runHist_histInv, ?_⟩
  intro h line hI hfull hlast
  obtain ⟨hle, hpos⟩ := hI
  have h0 : ¬ h.maxLen = 0 := by omega
  constructor
  · unfold clirHistoryAdd
    simp only [if_neg h0, if_pos hfull]
    have hdup : ¬ ((h.entries.drop 1).length ≠ 0 ∧
        (h.entries.drop 1).getLast? = some line) := by
      by_cases h2 : 2 ≤ h.entries.length
      · rw [getLast?_drop_one h.entries h2]
        intro hc
        exact hlast hc.2
      · intro hc
        have := hc.1
        simp [List.length_drop] at this
        omega
    simp only [if_neg hdup]
  · simp only [List.length_append, List.length_drop, List.length_singleton]
    omega

theorem C7_capacity_invariant_witness :
    histInv (runHist [HistOp.add ['a'], HistOp.add ['b'], HistOp.setMax 1] initHist) ∧
    clirHistoryAdd ['c'] { entries := [['a'], ['b']], maxLen := 2 } =
      ({ entries := [['b'], ['c']], maxLen := 2 }, true) :=
  ⟨C7_capacity_invariant.2.1 [HistOp.add ['a'], HistOp.add ['b'], HistOp.setMax 1]
      initHist (by constructor <;> decide),
   (C7_capacity_invariant.2.2 { entries := [['a'], ['b']], maxLen := 2 } ['c']
      (by constructor <;> decide) (by decide) (by decide)).1⟩

theorem sameCore_refl (st : EditState) : sameCore st st :=
  ⟨rfl, rfl, rfl, rfl, rfl, rfl, rfl⟩

theorem sameCore_trans {a b c : EditState} (h1 : sameCore a b) (h2 : sameCore b c) :
    sameCore a c :=
  ⟨h1.1.trans h2.1, h1.2.1.trans h2.2.1, h1.2.2.1.trans h2.2.2.1,
   h1.2.2.2.1.trans h2.2.2.2.1, h1.2.2.2.2.1.trans h2.2.2.2.2.1,
   h1.2.2.2.2.2.1.trans h2.2.2.2.2.2.1, h1.2.2.2.2.2.2.trans h2.2.2.2.2.2.2⟩

theorem sameCore_maxrows (st : EditState) (v : Nat) :
    sameCore { st with maxrows := v } st :=
  ⟨rfl, rfl, rfl, rfl, rfl, rfl, rfl⟩

theorem sameCore_oldpos (st : EditState) (v : Nat) :
    sameCore { st with oldpos := v } st :=
  ⟨rfl, rfl, rfl, rfl, rfl, rfl, rfl⟩

theorem sameCore_ite {a b st : EditState} (c : Prop) [Decidable c]
    (ha : sameCore a st) (hb : sameCore b st) : sameCore (if c then a else b) st := by
  by_cases h : c
  · rwa [if_pos h]
  · rwa [if_neg h]

theorem refreshMultiFinish_sameCore (w : Nat → Bool) (base rows : Nat) (st : EditState) :
    sameCore (refreshMultiFinish w base rows st) st := by
  unfold refreshMultiFinish
  dsimp only
  exact sameCore_ite _ (sameCore_oldpos st st.pos) (sameCore_refl st)

theorem refreshMultiLine_sameCore (w : Nat → Bool) (st : EditState) :
    sameCore (refreshMultiLine w st) st := by
  unfold refreshMultiLine
  dsimp only
  refine sameCore_ite _ (sameCore_ite _ (sameCore_maxrows st _) (sameCore_refl st))
    (sameCore_ite _
      (sameCore_ite _ (sameCore_ite _ (sameCore_maxrows st _) (sameCore_refl st))
        (sameCore_trans (refreshMultiFinish_sameCore w _ _ _)
          (sameCore_trans (sameCore_ite _ (sameCore_maxrows _ _) (sameCore_refl _))
            (sameCore_ite _ (sameCore_maxrows st _) (sameCore_refl st)))))
      (sameCore_trans (refreshMultiFinish_sameCore w _ _ _)
        (sameCore_ite _ (sameCore_maxrows st _) (sameCore_refl st))))

theorem refreshLine_sameCore (ml : Bool) (w : Nat → Bool) (st : EditState) :
    sameCore (refreshLine ml w st) st := by
  unfold refreshLine
  split
  · exact refreshMultiLine_sameCore w st
  · exact ⟨rfl, rfl, rfl, rfl, rfl, rfl, rfl⟩

theorem editInv_of_sameCore {a b : EditState} (h : sameCore a b) (hI : editInv b) :
    editInv a := by
  obtain ⟨-, h2, h3, h4, -, -, -⟩ := h
  exact ⟨by rw [h3, h2]; exact hI.1, by rw [h2, h4]; exact hI.2⟩

theorem nulInv_of_sameCore {a b : EditState} (h : sameCore a b) (hI : nulInv b) :
    nulInv a := by
  obtain ⟨h1, h2, -, -, -, -, -⟩ := h
  rw [nulInv, h1, h2]
  exact hI

theorem skipSpacesBack_le (buf : Nat → Char) (p : Nat) : skipSpacesBack buf p ≤ p := by
  induction p with
  | zero => simp [skipSpacesBack]
  | succ n ih =>
      unfold skipSpacesBack
      split
      · exact le_trans ih (Nat.le_succ n)
      · exact le_refl _

theorem skipWordBack_le (buf : Nat → Char) (p : Nat) : skipWordBack buf p ≤ p := by
  induction p with
  | zero => simp [skipWordBack]
  | succ n ih =>
      unfold skipWordBack
      split
      · exact le_trans ih (Nat.le_succ n)
      · exact le_refl _

theorem clirEditInsert_editInv (ml : Bool) (w : Nat → Bool) (st : EditState) (c : Char)
    (hI : editInv st) : editInv (clirEditInsert ml w st c).1 := by
  obtain ⟨h1, h2⟩ := hI
  unfold clirEditInsert
  dsimp only
  simp only [apply_ite Prod.fst]
  split_ifs with hcap hfast hcond
  · exact ⟨by dsimp only; omega, by dsimp only; omega⟩
  · refine editInv_of_sameCore (refreshLine_sameCore ml w _) ⟨?_, ?_⟩ <;>
      (dsimp only; omega)
  · refine editInv_of_sameCore (refreshLine_sameCore ml w _) ⟨?_, ?_⟩ <;>
      (dsimp only; omega)
  · exact ⟨h1, h2⟩

theorem clirEditDelete_editInv (ml : Bool) (w : Nat → Bool) (st : EditState)
    (hI : editInv st) : editInv (clirEditDelete ml w st) := by
  obtain ⟨h1, h2⟩ := hI
  unfold clirEditDelete
  split_ifs with hg
  · refine editInv_of_sameCore (refreshLine_sameCore ml w _) ⟨?_, ?_⟩ <;>
      (dsimp only; omega)
  · exact ⟨h1, h2⟩

theorem clirEditBackspace_editInv (ml : Bool) (w : Nat → Bool) (st : EditState)
    (hI : editInv st) : editInv (clirEditBackspace ml w st) := by
  obtain ⟨h1, h2⟩ := hI
  unfold clirEditBackspace
  split_ifs with hg
  · refine editInv_of_sameCore (refreshLine_sameCore ml w _) ⟨?_, ?_⟩ <;>
      (dsimp only; omega)
  · exact ⟨h1, h2⟩

theorem clirEditDeletePrevWord_editInv (ml : Bool) (w : Nat → Bool) (st : EditState)
    (hI : editInv st) : editInv (clirEditDeletePrevWord ml w st) := by
  obtain ⟨h1, h2⟩ := hI
  unfold clirEditDeletePrevWord
  dsimp only
  have hs : skipWordBack st.buf (skipSpacesBack st.buf st.pos) ≤ st.pos :=
    le_trans (skipWordBack_le _ _) (skipSpacesBack_le _ _)
  refine editInv_of_sameCore (refreshLine_sameCore ml w _) ⟨?_, ?_⟩ <;>
    (dsimp only; omega)

theorem clirEditMoveLeft_editInv (ml : Bool) (w : Nat → Bool) (st : EditState)
    (hI : editInv st) : editInv (clirEditMoveLeft ml w st) := by
  obtain ⟨h1, h2⟩ := hI
  unfold clirEditMoveLeft
  split_ifs with hg
  · refine editInv_of_sameCore (refreshLine_sameCore ml w _) ⟨?_, ?_⟩ <;>
      (dsimp only; omega)
  · exact ⟨h1, h2⟩

theorem clirEditMoveRight_editInv (ml : Bool) (w : Nat → Bool) (st : EditState)
    (hI : editInv st) : editInv (clirEditMoveRight ml w st) := by
  obtain ⟨h1, h2⟩ := hI
  unfold clirEditMoveRight
  split_ifs with hg
  · refine editInv_of_sameCore (refreshLine_sameCore ml w _) ⟨?_, ?_⟩ <;>
      (dsimp only; omega)
  · exact ⟨h1, h2⟩

theorem ctrlUCase_editInv (ml : Bool) (w : Nat → Bool) (st : EditState)
    (hI : editInv st) : editInv (ctrlUCase ml w st) := by
  obtain ⟨h1, h2⟩ := hI
  unfold ctrlUCase
  refine editInv_of_sameCore (refreshLine_sameCore ml w _) ⟨?_, ?_⟩ <;>
    (dsimp only; omega)

theorem ctrlKCase_editInv (ml : Bool) (w : Nat → Bool) (st : EditState)
    (hI : editInv st) : editInv (ctrlKCase ml w st) := by
  obtain ⟨h1, h2⟩ := hI
  unfold ctrlKCase
  refine editInv_of_sameCore (refreshLine_sameCore ml w _) ⟨?_, ?_⟩ <;>
    (dsimp only; omega)

theorem ctrlTCase_editInv (ml : Bool) (w : Nat → Bool) (st : EditState)
    (hI : editInv st) : editInv (ctrlTCase ml w st) := by
  obtain ⟨h1, h2⟩ := hI
  unfold ctrlTCase
  by_cases hg : 0 < st.pos ∧ st.pos < st.len
  · rw [if_pos hg]
    refine editInv_of_sameCore (refreshLine_sameCore ml w _) ⟨?_, ?_⟩
    · dsimp only
      split <;> omega
    · dsimp only
      omega
  · rw [if_neg hg]
    exact ⟨h1, h2⟩

theorem applyEditOp_editInv (ml : Bool) (op : EditOp) (st : EditState)
    (hI : editInv st) : editInv (applyEditOp ml op st) := by
  cases op with
  | insertCh c w => exact clirEditInsert_editInv ml w st c hI
  | deleteCh w => exact clirEditDelete_editInv ml w st hI
  | backspaceCh w => exact clirEditBackspace_editInv ml w st hI
  | delWord w => exact clirEditDeletePrevWord_editInv ml w st hI
  | moveL w => exact clirEditMoveLeft_editInv ml w st hI
  | moveR w => exact clirEditMoveRight_editInv ml w st hI
  | clearAll w => exact ctrlUCase_editInv ml w st hI
  | killEnd w => exact ctrlKCase_editInv ml w st hI
  | swapPrev w => exact ctrlTCase_editInv ml w st hI

theorem runEditOps_editInv (ml : Bool) (ops : List EditOp) (st : EditState)
    (hI : editInv st) : editInv (runEditOps ml ops st) := by
  induction ops generalizing st with
  | nil => exact hI
  | cons op rest ih => exact ih _ (applyEditOp_editInv ml op st hI)

/-- C8: for every sequence of editing operations (insert, delete-forward,
delete-backward, delete-previous-word — and also the other buffer-mutating
cases of the dispatch) starting from the freshly initialised empty buffer of
`clirEdit`, the invariant `0 ≤ cursor ≤ length ≤ capacity` holds after every
operation: every initial segment of a sequence is itself a sequence, and the lower
bound is automatic for the unsigned `size_t` fields. -/

theorem C8_buffer_invariant (ml : Bool) (ops : List EditOp)
    (buflen plen cols : Nat) (junk : Nat → Char) :
    editInv (runEditOps ml ops (clirEditInit buflen plen cols junk)) :=
  runEditOps_editInv ml ops _ ⟨Nat.le_refl 0, Nat.zero_le _⟩

theorem clirEditInsert_nulInv (ml : Bool) (w : Nat → Bool) (st : EditState) (c : Char)
    (hc : c ≠ nulChar) (hE : editInv st) (hN : nulInv st) :
    nulInv (clirEditInsert ml w st c).1 := by
  obtain ⟨hE1, hE2⟩ := hE
  obtain ⟨hN1, hN2⟩ := hN
  unfold clirEditInsert
  dsimp only
  simp only [apply_ite Prod.fst]
  split_ifs with hcap hfast hcond
  · refine ⟨?_, ?_⟩
    · dsimp only
      simp [updFn]
    · intro i hi
      dsimp only at hi ⊢
      simp only [updFn]
      split_ifs with ha hb
      · omega
      · exact hc
      · exact hN2 i (by omega)
  · refine nulInv_of_sameCore (refreshLine_sameCore ml w _) ⟨?_, ?_⟩
    · dsimp only
      simp [updFn]
    · intro i hi
      dsimp only at hi ⊢
      simp only [updFn]
      split_ifs with ha hb
      · omega
      · exact hc
      · exact hN2 i (by omega)
  · refine nulInv_of_sameCore (refreshLine_sameCore ml w _) ⟨?_, ?_⟩
    · dsimp only
      simp [updFn]
    · intro i hi
      dsimp only at hi ⊢
      simp only [updFn]
      split_ifs with ha hb hs
      · omega
      · exact hc
      · exact hN2 (i - 1) (by omega)
      · exact hN2 i (by omega)
  · exact ⟨hN1, hN2⟩

theorem clirEditDelete_nulInv (ml : Bool) (w : Nat → Bool) (st : EditState)
    (hE : editInv st) (hN : nulInv st) : nulInv (clirEditDelete ml w st) := by
  obtain ⟨hE1, hE2⟩ := hE
  obtain ⟨hN1, hN2⟩ := hN
  unfold clirEditDelete
  by_cases hg : 0 < st.len ∧ st.pos < st.len
  · rw [if_pos hg]
    refine nulInv_of_sameCore (refreshLine_sameCore ml w _) ⟨?_, ?_⟩
    · dsimp only
      simp [updFn]
    · intro i hi
      dsimp only at hi ⊢
      simp only [updFn]
      split_ifs with ha hs
      · omega
      · exact hN2 (i + 1) (by omega)
      · exact hN2 i (by omega)
  · rw [if_neg hg]
    exact ⟨hN1, hN2⟩

theorem clirEditBackspace_nulInv (ml : Bool) (w : Nat → Bool) (st : EditState)
    (hE : editInv st) (hN : nulInv st) : nulInv (clirEditBackspace ml w st) := by
  obtain ⟨hE1, hE2⟩ := hE
  obtain ⟨hN1, hN2⟩ := hN
  unfold clirEditBackspace
  by_cases hg : 0 < st.pos ∧ 0 < st.len
  · rw [if_pos hg]
    refine nulInv_of_sameCore (refreshLine_sameCore ml w _) ⟨?_, ?_⟩
    · dsimp only
      simp [updFn]
    · intro i hi
      dsimp only at hi ⊢
      simp only [updFn]
      split_ifs with ha hs
      · omega
      · exact hN2 (i + 1) (by omega)
      · exact hN2 i (by omega)
  · rw [if_neg hg]
    exact ⟨hN1, hN2⟩

theorem clirEditDeletePrevWord_nulInv (ml : Bool) (w : Nat → Bool) (st : EditState)
    (hE : editInv st) (hN : nulInv st) : nulInv (clirEditDeletePrevWord ml w st) := by
  obtain ⟨hE1, hE2⟩ := hE
  obtain ⟨hN1, hN2⟩ := hN
  unfold clirEditDeletePrevWord
  dsimp only
  have hs : skipWordBack st.buf (skipSpacesBack st.buf st.pos) ≤ st.pos :=
    le_trans (skipWordBack_le _ _) (skipSpacesBack_le _ _)
  refine nulInv_of_sameCore (refreshLine_sameCore ml w _) ⟨?_, ?_⟩
  · dsimp only
    rw [if_pos ⟨by omega, by omega⟩]
    have he : st.len - (st.pos - skipWordBack st.buf (skipSpacesBack st.buf st.pos)) -
        skipWordBack st.buf (skipSpacesBack st.buf st.pos) + st.pos = st.len := by omega
    rw [he]
    exact hN1
  · intro i hi
    dsimp only at hi ⊢
    split_ifs with ha
    · exact hN2 (i - skipWordBack st.buf (skipSpacesBack st.buf st.pos) + st.pos) (by omega)
    · exact hN2 i (by omega)

theorem clirEditMoveLeft_nulInv (ml : Bool) (w : Nat → Bool) (st : EditState)
    (hN : nulInv st) : nulInv (clirEditMoveLeft ml w st) := by
  obtain ⟨hN1, hN2⟩ := hN
  unfold clirEditMoveLeft
  split_ifs with hg
  · exact nulInv_of_sameCore (refreshLine_sameCore ml w _) ⟨hN1, hN2⟩
  · exact ⟨hN1, hN2⟩

theorem clirEditMoveRight_nulInv (ml : Bool) (w : Nat → Bool) (st : EditState)
    (hN : nulInv st) : nulInv (clirEditMoveRight ml w st) := by
  obtain ⟨hN1, hN2⟩ := hN
  unfold clirEditMoveRight
  split_ifs with hg
  · exact nulInv_of_sameCore (refreshLine_sameCore ml w _) ⟨hN1, hN2⟩
  · exact ⟨hN1, hN2⟩

theorem ctrlUCase_nulInv (ml : Bool) (w : Nat → Bool) (st : EditState) :
    nulInv (ctrlUCase ml w st) := by
  unfold ctrlUCase
  refine nulInv_of_sameCore (refreshLine_sameCore ml w _) ⟨?_, ?_⟩
  · dsimp only
    simp [updFn]
  · intro i hi
    dsimp only at hi
    omega

theorem ctrlKCase_nulInv (ml : Bool) (w : Nat → Bool) (st : EditState)
    (hE : editInv st) (hN : nulInv st) : nulInv (ctrlKCase ml w st) := by
  obtain ⟨hE1, hE2⟩ := hE
  obtain ⟨hN1, hN2⟩ := hN
  unfold ctrlKCase
  refine nulInv_of_sameCore (refreshLine_sameCore ml w _) ⟨?_, ?_⟩
  · dsimp only
    simp [updFn]
  · intro i hi
    dsimp only at hi ⊢
    simp only [updFn]
    split_ifs with ha
    · omega
    · exact hN2 i (by omega)

theorem ctrlTCase_nulInv (ml : Bool) (w : Nat → Bool) (st : EditState)
    (hE : editInv st) (hN : nulInv st) : nulInv (ctrlTCase ml w st) := by
  obtain ⟨hE1, hE2⟩ := hE
  obtain ⟨hN1, hN2⟩ := hN
  unfold ctrlTCase
  by_cases hg : 0 < st.pos ∧ st.pos < st.len
  · rw [if_pos hg]
    refine nulInv_of_sameCore (refreshLine_sameCore ml w _) ⟨?_, ?_⟩
    · dsimp only
      simp only [updFn]
      split_ifs with ha hb
      · omega
      · omega
      · exact hN1
    · intro i hi
      dsimp only at hi ⊢
      simp only [updFn]
      split_ifs with ha hb
      · exact hN2 (st.pos - 1) (by omega)
      · exact hN2 st.pos (by omega)
      · exact hN2 i (by omega)
  · rw [if_neg hg]
    exact ⟨hN1, hN2⟩

theorem runEditOps_nulInv (ml : Bool) (ops : List EditOp) (st : EditState)
    (hE : editInv st) (hN : nulInv st) (hOps : insertsNonNul ops = true) :
    nulInv (runEditOps ml ops st) := by
  induction ops generalizing st with
  | nil => exact hN
  | cons op rest ih =>
      cases op with
      | insertCh c w =>
          simp only [insertsNonNul, Bool.and_eq_true, bne_iff_ne] at hOps
          exact ih _ (clirEditInsert_editInv ml w st c ⟨hE.1, hE.2⟩)
            (clirEditInsert_nulInv ml w st c hOps.1 hE hN) hOps.2
      | deleteCh w =>
          exact ih _ (clirEditDelete_editInv ml w st hE)
            (clirEditDelete_nulInv ml w st hE hN) (by simpa [insertsNonNul] using hOps)
      | backspaceCh w =>
          exact ih _ (clirEditBackspace_editInv ml w st hE)
            (clirEditBackspace_nulInv ml w st hE hN) (by simpa [insertsNonNul] using hOps)
      | delWord w =>
          exact ih _ (clirEditDeletePrevWord_editInv ml w st hE)
            (clirEditDeletePrevWord_nulInv ml w st hE hN) (by simpa [insertsNonNul] using hOps)
      | moveL w =>
          exact ih _ (clirEditMoveLeft_editInv ml w st hE)
            (clirEditMoveLeft_nulInv ml w st hN) (by simpa [insertsNonNul] using hOps)
      | moveR w =>
          exact ih _ (clirEditMoveRight_editInv ml w st hE)
            (clirEditMoveRight_nulInv ml w st hN) (by simpa [insertsNonNul] using hOps)
      | clearAll w =>
          exact ih _ (ctrlUCase_editInv ml w st hE)
            (ctrlUCase_nulInv ml w st) (by simpa [insertsNonNul] using hOps)
      | killEnd w =>
          exact ih _ (ctrlKCase_editInv ml w st hE)
            (ctrlKCase_nulInv ml w st hE hN) (by simpa [insertsNonNul] using hOps)
      | swapPrev w =>
          exact ih _ (ctrlTCase_editInv ml w st hE)
            (ctrlTCase_nulInv ml w st hE hN) (by simpa [insertsNonNul] using hOps)

/-- C10 counterexample.  As stated the claim asserts that the buffer content
strictly below `len` never contains the terminator.  But a NUL byte typed by
the user (ctrl-@, byte 0) reaches the `default` case of the `clirEdit`
dispatch and is inserted like any other character: after inserting `nulChar`
into the fresh buffer the content at index 0 inside the `len = 1` span is
the terminator itself. -/

theorem C10_counterexample :
    0 < (runEditOps false [EditOp.insertCh nulChar (fun _ => true)]
      (clirEditInit 10 0 80 (fun _ => ' '))).len ∧
    (runEditOps false [EditOp.insertCh nulChar (fun _ => true)]
      (clirEditInit 10 0 80 (fun _ => ' '))).buf 0 = nulChar := by
  exact ⟨by decide, by decide⟩

/-- C10 amended: the session reserves one byte of the caller-supplied buffer
for the terminator (`buflen--` at clir.c line 654, so the effective text
capacity is one less than the supplied size), and after every editing
operation the byte at index `len` is the NUL terminator; the content between
0 and `len` contains no embedded terminator provided every inserted
character is non-NUL (inserting byte 0 itself is the counterexample to the
unconditional claim). -/

theorem C10_amended (ml : Bool) (ops : List EditOp) (buflen plen cols : Nat)
    (junk : Nat → Char) (hOps : insertsNonNul ops = true) :
    (clirEditInit buflen plen cols junk).buflen = buflen - 1 ∧
    nulInv (runEditOps ml ops (clirEditInit buflen plen cols junk)) := by
  refine ⟨rfl, ?_⟩
  refine runEditOps_nulInv ml ops _ ⟨Nat.le_refl 0, Nat.zero_le _⟩ ⟨?_, ?_⟩ hOps
  · simp [clirEditInit, updFn]
  · intro i hi
    simp [clirEditInit] at hi

/-! ## Multi-row refresh arithmetic (claim C6) -/

theorem ceil_div_formula (a c : Nat) (hc : 1 ≤ c) :
    (a + c - 1) / c = ceilDivSpec a c := by
  have hc0 : 0 < c := hc
  obtain ⟨q, r, hr, hqr⟩ : ∃ q r, r < c ∧ a = c * q + r :=
    ⟨a / c, a % c, Nat.mod_lt _ hc0, ((Nat.div_add_mod a c).symm : a = c * (a / c) + a % c)⟩
  subst hqr
  have hq : (c * q + r) / c = q + r / c := Nat.mul_add_div hc0 _ _
  have hm : (c * q + r) % c = r % c := Nat.mul_add_mod _ _ _
  unfold ceilDivSpec
  rw [hq, hm, Nat.mod_eq_of_lt hr, Nat.div_eq_of_lt hr, Nat.add_zero]
  by_cases h0 : r = 0
  · subst h0
    rw [if_pos rfl, Nat.add_zero, Nat.add_zero]
    have e : c * q + c - 1 = c * q + (c - 1) := by omega
    rw [e, Nat.mul_add_div hc0, Nat.div_eq_of_lt (by omega), Nat.add_zero]
  · rw [if_neg h0]
    have e : c * q + r + c - 1 = c * (q + 1) + (r - 1) := by
      have hx : c * (q + 1) = c * q + c := by ring
      omega
    rw [e, Nat.mul_add_div hc0, Nat.div_eq_of_lt (by omega), Nat.add_zero]

/-- C6 counterexample.  The claim states that the cursor's previous relative
row is computed as `ceil((promptLen + oldCursor) / columns)`.  At
`promptLen = 0`, `oldCursor = 0`, `columns = 10` the code
(`(plen+cs->oldpos+cs->cols)/cs->cols`, clir.c line 420) yields 1 while the
claimed ceiling is 0; the two differ exactly when `columns` divides
`promptLen + oldCursor`. -/

theorem C6_counterexample : refreshRpos 0 0 10 ≠ ceilDivSpec (0 + 0) 10 := by
  decide

/-- C6 amended: for every prompt length, buffer length, previous cursor
position and column count ≥ 1, the multi-row refresh computes the number of
rows occupied by the current line as `ceil((promptLen + length) / columns)`
— as claimed — and the cursor's previous relative row as
`floor((promptLen + oldCursor) / columns) + 1` (its 1-based row index),
not as the claimed ceiling. -/

theorem C6_amended (plen len oldpos cols : Nat) (hc : 1 ≤ cols) :
    refreshRows plen len cols = ceilDivSpec (plen + len) cols ∧
    refreshRpos plen oldpos cols = (plen + oldpos) / cols + 1 := by
  constructor
  · exact ceil_div_formula (plen + len) cols hc
  · unfold refreshRpos
    exact Nat.add_div_right _ hc

theorem C6_amended_witness :
    refreshRows 2 5 4 = ceilDivSpec (2 + 5) 4 ∧
    refreshRpos 2 3 4 = (2 + 3) / 4 + 1 :=
  C6_amended 2 5 3 4 (by decide)

/-! ## Write failures during redraw and echo (claim C2) -/

/-- C2 counterexample.  The claim states that a failed terminal write during
redraw or echo is never reported as an edit error.  But in the single-line
fast path of `clirEditInsert` (clir.c line 530) a failed `write` of the
echoed character makes the function return -1, and the `default` case of
`clirEdit` (line 828) then returns -1, ending the session with an error;
the character remains inserted (`len` became 1). -/

theorem C2_counterexample :
    (clirEditDefaultCase false (fun _ => false) 'a'
      (clirEditInit 10 0 80 (fun _ => ' '))).2 = some (-1) ∧
    (clirEditDefaultCase false (fun _ => false) 'a'
      (clirEditInit 10 0 80 (fun _ => ' '))).1.len = 1 := by
  exact ⟨rfl, rfl⟩

/-- C2 amended: redraw write failures are swallowed — whatever writes fail,
`refreshLine` never changes the buffer contents, length or cursor, and the
logical state produced by `clirEditInsert` does not depend on the write
outcomes; but the echo write of the single-line fast path is the exception
to "never reported": with multi-line mode off, the `default` dispatch case
ends the session with an error exactly when the insert takes the fast path
(`len < buflen`, cursor at end, prompt plus new length within one row) and
its echo write fails, while with multi-line mode on no write failure is
ever reported. -/

theorem C2_amended :
    (∀ ml w st, (refreshLine ml w st).buf = st.buf ∧
      (refreshLine ml w st).len = st.len ∧ (refreshLine ml w st).pos = st.pos) ∧
    (∀ ml w st c,
      (clirEditInsert ml w st c).1.buf = (clirEditInsert ml (fun _ => true) st c).1.buf ∧
      (clirEditInsert ml w st c).1.len = (clirEditInsert ml (fun _ => true) st c).1.len ∧
      (clirEditInsert ml w st c).1.pos = (clirEditInsert ml (fun _ => true) st c).1.pos) ∧
    (∀ w c st, (clirEditDefaultCase false w c st).2 =
      if st.len < st.buflen ∧ st.len = st.pos ∧ st.plen + st.len + 1 < st.cols ∧ w 0 = false
      then some (-1) else none) ∧
    (∀ w c st, (clirEditDefaultCase true w c st).2 = none) := by
  have hRef : ∀ ml w st, (refreshLine ml w st).buf = st.buf ∧
      (refreshLine ml w st).len = st.len ∧ (refreshLine ml w st).pos = st.pos := by
    intro ml w st
    obtain ⟨a1, a2, a3, -, -, -, -⟩ := refreshLine_sameCore ml w st
    exact ⟨a1, a2, a3⟩
  have hIns : ∀ ml w st c,
      (clirEditInsert ml w st c).1.buf = (clirEditInsert ml (fun _ => true) st c).1.buf ∧
      (clirEditInsert ml w st c).1.len = (clirEditInsert ml (fun _ => true) st c).1.len ∧
      (clirEditInsert ml w st c).1.pos = (clirEditInsert ml (fun _ => true) st c).1.pos := by
    intro ml w st c
    unfold clirEditInsert
    dsimp only
    simp only [apply_ite Prod.fst]
    split_ifs with hcap hfast
    · exact ⟨rfl, rfl, rfl⟩
    · obtain ⟨a1, a2, a3, -, -, -, -⟩ := refreshLine_sameCore ml w
        { st with buf := updFn (updFn st.buf st.pos c) (st.len + 1) nulChar,
                  pos := st.pos + 1, len := st.len + 1 }
      obtain ⟨b1, b2, b3, -, -, -, -⟩ := refreshLine_sameCore ml (fun _ => true)
        { st with buf := updFn (updFn st.buf st.pos c) (st.len + 1) nulChar,
                  pos := st.pos + 1, len := st.len + 1 }
      exact ⟨a1.trans b1.symm, a2.trans b2.symm, a3.trans b3.symm⟩
    · obtain ⟨a1, a2, a3, -, -, -, -⟩ := refreshLine_sameCore ml w
        { st with
            buf := updFn (updFn
              (fun j => if st.pos + 1 ≤ j ∧ j ≤ st.len then st.buf (j - 1) else st.buf j)
              st.pos c) (st.len + 1) nulChar,
            pos := st.pos + 1, len := st.len + 1 }
      obtain ⟨b1, b2, b3, -, -, -, -⟩ := refreshLine_sameCore ml (fun _ => true)
        { st with
            buf := updFn (updFn
              (fun j => if st.pos + 1 ≤ j ∧ j ≤ st.len then st.buf (j - 1) else st.buf j)
              st.pos c) (st.len + 1) nulChar,
            pos := st.pos + 1, len := st.len + 1 }
      exact ⟨a1.trans b1.symm, a2.trans b2.symm, a3.trans b3.symm⟩
    · exact ⟨rfl, rfl, rfl⟩
  refine ⟨hRef, hIns, ?_, ?_⟩
  · intro w c st
    unfold clirEditDefaultCase clirEditInsert
    dsimp only
    by_cases hcap : st.len < st.buflen
    · rw [if_pos hcap]
      by_cases hfast : st.len = st.pos
      · rw [if_pos hfast]
        by_cases hcond : (¬(false = true)) ∧ st.plen + (st.len + 1) < st.cols
        · rw [if_pos hcond]
          by_cases hw : w 0 = true
          · rw [if_pos hw]
            simp only []
            rw [if_neg (by simp)]
            dsimp only
            rw [if_neg (by
              intro hcon
              rw [hcon.2.2.2] at hw
              exact Bool.false_ne_true hw)]
          · rw [if_neg hw]
            simp only []
            rw [if_pos (by decide)]
            rw [if_pos ⟨hcap, hfast, by omega, by
              cases hb : w 0
              · rfl
              · exact absurd hb hw⟩]
        · rw [if_neg hcond]
          dsimp only
          rw [if_neg (by simp)]
          dsimp only
          rw [if_neg (by
            intro hcon
            exact hcond ⟨by simp, by omega⟩)]
      · rw [if_neg hfast]
        dsimp only
        rw [if_neg (by simp)]
        dsimp only
        rw [if_neg (by
          intro hcon
          exact hfast hcon.2.1)]
    · rw [if_neg hcap]
      dsimp only
      rw [if_neg (by simp)]
      dsimp only
      rw [if_neg (by
        intro hcon
        exact hcap hcon.1)]
  · intro w c st
    have h2 : (clirEditInsert true w st c).2 = 0 := by
      unfold clirEditInsert
      dsimp only
      by_cases hcap : st.len < st.buflen
      · rw [if_pos hcap]
        by_cases hfast : st.len = st.pos
        · rw [if_pos hfast, if_neg (by simp)]
        · rw [if_neg hfast]
      · rw [if_neg hcap]
    unfold clirEditDefaultCase
    dsimp only
    rw [if_neg (by rw [h2]; simp)]

/-- C3 counterexample.  The claim says the producer is invoked with exactly
the text typed since the last whitespace boundary and nothing else, which
would make the outcome depend only on the producer's value at that word.
In the state with buffer `"ab c"` (current word `"c"`), the producers
`p1C3` and `p2C3` agree on the current word (both return nothing for
`"c"`), yet completion behaves differently: `p2C3` receives the whole
buffer `"ab c"`, returns a candidate, and the buffer grows from length 4 to
length 6, while with `p1C3` nothing happens. -/

theorem C3_counterexample :
    p1C3 (specCompletionArg stC3) = p2C3 (specCompletionArg stC3) ∧
    (completeWord false (fun _ _ => true) p1C3 stC3).st.len ≠
      (completeWord false (fun _ _ => true) p2C3 stC3).st.len := by
  exact ⟨by decide, by decide⟩

/-- C3 amended: the producer is invoked with the entire buffer content
(`cs->buf`, clir.c line 245), not just the current word; two producers that
agree on the whole buffer produce identical completion outcomes, and the
word boundary `word_pos` is used only to filter candidate validity. -/

theorem C3_amended (ml : Bool) (wfam : Nat → Nat → Bool) (p1 p2 : Str → List Str)
    (st : EditState) (h : p1 (bufList st) = p2 (bufList st)) :
    completeWord ml wfam p1 st = completeWord ml wfam p2 st := by
  unfold completeWord
  rw [h]

theorem C3_amended_witness :
    completeWord false (fun _ _ => true)
      (fun s => if s = ([] : Str) then [['z']] else exampleCompletion s) stC3 =
    completeWord false (fun _ _ => true) exampleCompletion stC3 :=
  C3_amended false (fun _ _ => true) _ _ stC3 (by decide)

/-- C4 counterexample.  The claim says the speculative placeholder is
discarded on interrupt exactly as on Enter.  Starting from history
`["x"]`, session start registers the empty placeholder giving `["x", ""]`;
the Enter case pops it back to `["x"]`, but the ctrl-c case (clir.c lines
693-695) leaves the store untouched: the placeholder `""` persists. -/

theorem C4_counterexample :
    (clirEditStart { entries := [['x']], maxLen := 100 }).entries = [['x'], []] ∧
    (clirEditInterruptCase (clirEditInit 10 0 80 (fun _ => ' '))
      (clirEditStart { entries := [['x']], maxLen := 100 })).1.entries = [['x'], []] ∧
    (clirEditEnterCase (clirEditInit 10 0 80 (fun _ => ' '))
      (clirEditStart { entries := [['x']], maxLen := 100 })).1.entries = [['x']] ∧
    (clirEditInterruptCase (clirEditInit 10 0 80 (fun _ => ' '))
        (clirEditStart { entries := [['x']], maxLen := 100 })).1 ≠
      (clirEditEnterCase (clirEditInit 10 0 80 (fun _ => ' '))
        (clirEditStart { entries := [['x']], maxLen := 100 })).1 := by
  exact ⟨by decide, by decide, by decide, by decide⟩

/-- C4 amended: the interrupt (ctrl-c) termination leaves the history store
unchanged — the speculative placeholder is *not* discarded — while the
Enter termination and the end-of-input termination (ctrl-d on an empty
buffer) both pop the newest entry (the placeholder). -/

theorem C4_amended (st : EditState) (h : Hist) :
    (clirEditInterruptCase st h).1 = h ∧
    (clirEditEnterCase st h).1.entries = h.entries.dropLast ∧
    (∀ ml w, st.len = 0 →
      (clirEditEofCase ml w st h).2.1.entries = h.entries.dropLast) := by
  refine ⟨rfl, rfl, ?_⟩
  intro ml w hlen
  unfold clirEditEofCase
  rw [if_neg (by omega)]

theorem C4_amended_witness :
    (clirEditInterruptCase (clirEditInit 10 0 80 (fun _ => ' '))
      { entries := [['x'], []], maxLen := 100 }).1 =
      { entries := [['x'], []], maxLen := 100 } ∧
    (clirEditEnterCase (clirEditInit 10 0 80 (fun _ => ' '))
      { entries := [['x'], []], maxLen := 100 }).1.entries =
      ({ entries := [['x'], []], maxLen := 100 } : Hist).entries.dropLast ∧
    (clirEditEofCase false (fun _ => true) (clirEditInit 10 0 80 (fun _ => ' '))
      { entries := [['x'], []], maxLen := 100 }).2.1.entries =
      ({ entries := [['x'], []], maxLen := 100 } : Hist).entries.dropLast := by
  have hA := C4_amended (clirEditInit 10 0 80 (fun _ => ' '))
    { entries := [['x'], []], maxLen := 100 }
  exact ⟨hA.1, hA.2.1, hA.2.2 false (fun _ => true) rfl⟩

/-- C9: with the example driver's producer, requesting completion after
typing `"h"` lists all four candidates and returns the state unchanged
(return value 1, listing branch); after `"he"` it lists exactly
`["hello", "hey"]` with the state unchanged; after `"hel"` exactly one
candidate is valid, so the remaining characters plus a trailing space are
appended, yielding the buffer `"hello "` (length 6, return value 0). -/

theorem C9_completion_scenario :
    (completeWord false (fun _ _ => true) exampleCompletion stH).listed =
      ["hello".toList, "hi".toList, "hey".toList, "howzit".toList] ∧
    (completeWord false (fun _ _ => true) exampleCompletion stH).ret = 1 ∧
    (completeWord false (fun _ _ => true) exampleCompletion stH).st = stH ∧
    (completeWord false (fun _ _ => true) exampleCompletion stHe).listed =
      ["hello".toList, "hey".toList] ∧
    (completeWord false (fun _ _ => true) exampleCompletion stHe).ret = 1 ∧
    (completeWord false (fun _ _ => true) exampleCompletion stHe).st = stHe ∧
    bufList (completeWord false (fun _ _ => true) exampleCompletion stHel).st =
      "hello ".toList ∧
    (completeWord false (fun _ _ => true) exampleCompletion stHel).st.len = 6 ∧
    (completeWord false (fun _ _ => true) exampleCompletion stHel).ret = 0 := by
  refine ⟨by decide, by decide, rfl, by decide, by decide, rfl, by decide, by decide,
    by decide⟩

theorem C10_amended_witness :
    (clirEditInit 10 0 80 (fun _ => ' ')).buflen = 10 - 1 ∧
    nulInv (runEditOps false
      [EditOp.insertCh 'a' (fun _ => true), EditOp.insertCh 'b' (fun _ => true),
       EditOp.delWord (fun _ => true)]
      (clirEditInit 10 0 80 (fun _ => ' '))) :=
  C10_amended false
    [EditOp.insertCh 'a' (fun _ => true), EditOp.insertCh 'b' (fun _ => true),
     EditOp.delWord (fun _ => true)]
    10 0 80 (fun _ => ' ') (by decide)
